import Mathlib

/-!
# Verification of the aom-rag-agent retrieval-augmented-generation core

Shallow embedding of the repository's core library code
(`src/lib/text-processing.ts`, `src/lib/rag.ts`, the embeddings,
pinecone and summarization modules) into Lean 4, together with theorems
settling the specification claims about it.

Conventions used throughout the embedding:

* JavaScript strings are modelled as Lean `String` (a list of unicode
  characters).  JS indexes strings by UTF-16 code units; on the inputs the
  claims are about (BMP text) the two coincide.
* JS numbers that hold integer quantities (lengths, token counts, indexes)
  are modelled as `Nat`.  Where a floating-point operation matters
  (`Math.floor(x * 0.75)`, `Math.ceil(len / 3.5)`, `maxChars * 0.8`) the
  exact rational value is used; at the call sites appearing in the code the
  double-precision result agrees with the exact rational one (see the
  comments at the individual definitions).
* Asynchronous calls to external services (OpenAI embeddings / chat
  completions, Pinecone queries) are modelled by function parameters: the
  provider is a pure function supplied to the embedded code.  Fallible
  provider calls return `Except`.
* Loops of the source whose termination is data-dependent (the word-level
  chunking loop `for (i = 0; i < words.length; i += maxWords - overlapWords)`)
  are embedded with an explicit fuel argument and an `Option` result:
  `none` models non-termination of the JS loop.
-/

set_option autoImplicit false

/-! ## Token estimation (`src/lib/text-processing.ts`, `estimateTokens`)

`estimateTokens(text) = Math.ceil(text.length / 3.5)`.
`⌈L / 3.5⌉ = ⌈2·L / 7⌉ = (2·L + 6) / 7` in natural-number division,
and `L / 3.5` is computed exactly for every length that fits in a double. -/

def estimateTokens (text : String) : Nat :=
  (2 * text.length + 6) / 7

/-! ## Whitespace splitting (`text.split(/\s+/)`)

JS `split(/\s+/)` cuts the string at every maximal run of whitespace.
A leading (resp. trailing) run contributes an empty first (resp. last)
piece, and `"".split(/\s+/) = [""]`.  The scanner below carries a flag
telling whether the previous character was part of a whitespace run. -/

def isWsChar (c : Char) : Bool := c.isWhitespace

/-- JS `String.prototype.trim()`: strip leading and trailing whitespace
(defined on the character list so that proofs and kernel evaluation can
unfold it). -/
def strTrim (s : String) : String :=
  String.mk (((s.data.dropWhile isWsChar).reverse.dropWhile isWsChar).reverse)

def jsSplitWsGo : Bool → List Char → List Char → List String
  | _, [], acc => [String.mk acc.reverse]
  | lastWs, c :: cs, acc =>
    if isWsChar c then
      if lastWs then jsSplitWsGo true cs acc
      else String.mk acc.reverse :: jsSplitWsGo true cs []
    else jsSplitWsGo false cs (c :: acc)

def jsSplitWs (s : String) : List String :=
  jsSplitWsGo false s.data []

/-! ## Sentence splitting (`splitIntoSentences`)

The regex `/(?<=[.!?])\s+(?=[A-Z])/g` splits at every maximal whitespace
run that is immediately preceded by `.`, `!` or `?` and immediately
followed by an ASCII uppercase letter; the whitespace of a successful
split is consumed.  The scanner keeps the reversed current sentence in
`acc`; while it is inside a candidate whitespace run (one that started
right after a sentence-final punctuation mark) the reversed run is kept
in `ws` until the character after the run decides whether to split. -/

def isUpperAZ (c : Char) : Bool := 'A' ≤ c && c ≤ 'Z'

def isSentEnd : Option Char → Bool
  | some c => c = '.' || c = '!' || c = '?'
  | none => false

def sentGo : List Char → List Char → List Char → List String
  | [], acc, ws => [String.mk (ws ++ acc).reverse]
  | c :: cs, acc, ws =>
    if ws.isEmpty then
      if isWsChar c && isSentEnd acc.head? then sentGo cs acc [c]
      else sentGo cs (c :: acc) []
    else
      if isWsChar c then sentGo cs acc (c :: ws)
      else if isUpperAZ c then String.mk acc.reverse :: sentGo cs [c] []
      else sentGo cs (c :: (ws ++ acc)) []

def splitIntoSentences (text : String) : List String :=
  ((sentGo text.data [] []).map strTrim).filter (fun s => 0 < s.length)

/-! ## Word-level fallback chunking (`chunkByWords`)

```
const maxWords = Math.floor(maxTokens * 0.75);
const overlapWords = Math.floor(overlap * 0.75);
for (let i = 0; i < words.length; i += (maxWords - overlapWords)) { ... }
```

`Math.floor(n * 0.75) = 3·n / 4` exactly (0.75 is a dyadic rational).
The loop is embedded with fuel; when the step `maxWords - overlapWords`
is not positive the JS loop never terminates, which the embedding models
as `none` (the fuel `words.length + 1` is sufficient for every positive
step, see `chunkByWordsGo_isSome_of_le`). -/

def joinSp (l : List String) : String := String.intercalate " " l

def chunkByWordsGo (words : List String) (maxWords step : Nat) :
    Nat → Nat → Option (List String)
  | fuel, i =>
    if i < words.length then
      match fuel with
      | 0 => none
      | fuel' + 1 =>
        match chunkByWordsGo words maxWords step fuel' (i + step) with
        | none => none
        | some rest =>
          let chunk := joinSp ((words.drop i).take maxWords)
          some (if 0 < (strTrim chunk).length then chunk :: rest else rest)
    else some []

def chunkByWords (text : String) (maxTokens overlap : Nat) :
    Option (List String) :=
  let words := jsSplitWs text
  let maxWords := maxTokens * 3 / 4
  let overlapWords := overlap * 3 / 4
  chunkByWordsGo words maxWords (maxWords - overlapWords) (words.length + 1) 0

/-! ## Overlap computation (`getOverlapSentences`)

Walks the sentence list backwards, collecting trailing sentences while
their accumulated token estimate stays within `overlapTokens`. -/

def overlapGo (overlapTokens : Nat) : List String → Nat → List String → List String
  | [], _, acc => acc
  | s :: rest, tokens, acc =>
    if overlapTokens < tokens + estimateTokens s then acc
    else overlapGo overlapTokens rest (tokens + estimateTokens s) (s :: acc)

def getOverlapSentences (sentences : List String) (overlapTokens : Nat) :
    List String :=
  overlapGo overlapTokens sentences.reverse 0 []

/-! ## Main chunking loop (`chunkText`, sentence-preserving path)

The source pushes `currentChunk.join(" ")` each time a chunk is closed.
The embedding keeps each produced chunk as the list of parts it was
joined from (the accumulated sentences for an ordinary chunk, a
singleton for each word-level fallback chunk) and joins them afterwards
in `chunkText`; the resulting string list is identical.  The `Option`
propagates possible non-termination of the word-level fallback loop. -/

structure ChunkConfig where
  maxTokens : Nat := 800
  overlap : Nat := 200
  preserveSentences : Bool := true
deriving DecidableEq, Repr

def chunkLoop (maxTokens overlap : Nat) :
    List String → List String → Nat → Option (List (List String))
  | [], current, _ =>
    some (if current.isEmpty then [] else [current])
  | sentence :: rest, current, currentTokens =>
    let sentenceTokens := estimateTokens sentence
    if maxTokens < sentenceTokens then
      -- single oversized sentence: flush the current chunk, word-split it
      match chunkByWords sentence maxTokens overlap with
      | none => none
      | some wordChunks =>
        (chunkLoop maxTokens overlap rest [] 0).map (fun tail =>
          (if current.isEmpty then [] else [current]) ++
            wordChunks.map (fun c => [c]) ++ tail)
    else if maxTokens < currentTokens + sentenceTokens && !current.isEmpty then
      let overlapSentences := getOverlapSentences current overlap
      (chunkLoop maxTokens overlap rest (overlapSentences ++ [sentence])
          (estimateTokens (joinSp overlapSentences) + sentenceTokens)).map
        (fun tail => current :: tail)
    else
      chunkLoop maxTokens overlap rest (current ++ [sentence])
        (currentTokens + sentenceTokens)

def chunkText (text : String) (config : ChunkConfig := {}) :
    Option (List String) :=
  if (strTrim text).length = 0 then some []
  else if estimateTokens text ≤ config.maxTokens then some [text]
  else
    let chunks :=
      if config.preserveSentences then
        (chunkLoop config.maxTokens config.overlap
            (splitIntoSentences text) [] 0).map (·.map joinSp)
      else
        chunkByWords text config.maxTokens config.overlap
    chunks.map (·.filter (fun c => 0 < (strTrim c).length))

/-! ## Vector ids (`src/lib/pinecone.ts`: `buildVectorId`, `parseVectorId`)

`buildVectorId` renders the chunk index with the default decimal
number-to-string conversion of the template literal
`` `article-${articleId}-chunk-${chunkIndex}` ``.  `natDecimal` is that
decimal rendering (indexes are array positions, far below the range
where JS switches to exponent notation). -/

def digitChar (n : Nat) : Char := Char.ofNat (48 + n)

def natDecimalGo : Nat → Nat → List Char
  | 0, _ => []
  | fuel + 1, n =>
    if n < 10 then [digitChar n]
    else natDecimalGo fuel (n / 10) ++ [digitChar (n % 10)]

def natDecimal (n : Nat) : List Char := natDecimalGo (n + 1) n

def natDecimalStr (n : Nat) : String := String.mk (natDecimal n)

def buildVectorId (articleId : String) (chunkIndex : Nat) : String :=
  "article-" ++ articleId ++ "-chunk-" ++ natDecimalStr chunkIndex

/-- `parseInt(s, 10)` on a digit string (exact for the index magnitudes the
code produces). -/
def digitsToNat (l : List Char) : Nat :=
  l.foldl (fun acc c => acc * 10 + (c.toNat - 48)) 0

def listStartsWith : List Char → List Char → Bool
  | [], _ => true
  | _ :: _, [] => false
  | p :: ps, c :: cs => p = c && listStartsWith ps cs

def allDigits (l : List Char) : Bool := l.all (·.isDigit)

/-- Split search for the regex `^article-(.+)-chunk-(\d+)$`.
`(.+)` is greedy and `.` does not match a newline, so a successful match
cuts the remainder (after the `article-` prefix) at the *last* position
`i ≥ 1` where the suffix is the literal `-chunk-` followed by one or more
digits running to the end of the string, and where the part before the
cut contains no newline.  `goParse` scans every cut position, preferring
the deeper (later) one, which is exactly the greedy behaviour. -/
def goParse : List Char → List Char → Option (List Char × List Char)
  | _, [] => none
  | pre, c :: cs =>
    match goParse (pre ++ [c]) cs with
    | some r => some r
    | none =>
      let ds := (c :: cs).drop 7
      if listStartsWith ("-chunk-".data) (c :: cs) && !ds.isEmpty &&
          allDigits ds && !pre.isEmpty && !pre.contains '\n' then
        some (pre, ds)
      else none

def parseVectorId (vectorId : String) : Option (String × Nat) :=
  if listStartsWith ("article-".data) vectorId.data then
    (goParse [] (vectorId.data.drop 8)).map
      (fun r => (String.mk r.1, digitsToNat r.2))
  else none

/-! ## Indexed record assembly (ingest routes)

`app/api/ingest/upload/route.ts` (and the CSV ingest route) build the
records written to the vector index as

```
{ id: buildVectorId(metadata.articleId, metadata.chunkIndex),
  values: embedding,
  metadata: { title, url, content, chunkIndex, articleId } }
```
-/

structure ChunkMetadata where
  title : String
  url : String
  content : String
  chunkIndex : Nat
  articleId : String
deriving DecidableEq, Repr

structure VectorRecord where
  id : String
  values : List ℚ
  metadata : ChunkMetadata
deriving DecidableEq, Repr

def mkVectorRecord (articleId title url : String) (chunkIndex : Nat)
    (content : String) (embedding : List ℚ) : VectorRecord :=
  { id := buildVectorId articleId chunkIndex
    values := embedding
    metadata := ⟨title, url, content, chunkIndex, articleId⟩ }

/-! ## Summarization (`lib/summarization.ts`)

The generative model behind `summarizeText` is a parameter
`model : String → Nat → Except String (Option String)`: it receives the
input text and the `max_tokens` budget and returns the completion
content (`none` models a null `message.content`) or throws.  Every
embedded function that can invoke the model returns, next to its value,
the number of generative-model calls it issued, so that "no call is
made" claims are expressible. -/

structure SummarizeResult where
  summary : String
  originalTokens : Nat
  summaryTokens : Nat
deriving DecidableEq, Repr

/-- `truncateToTokenLimit` (summarization module).
`maxChars = Math.floor(maxTokens * 3.5) = 7·maxTokens / 2`; the
back-up-to-a-period test `lastPeriod > maxChars * 0.8` is
`4 · maxChars < 5 · lastPeriod` (both sides are computed exactly by the
doubles at the one call site, `maxTokens = 6000`, `maxChars = 21000`,
`maxChars * 0.8 = 16800`). -/
def strTake (s : String) (n : Nat) : String := String.mk (s.data.take n)

def lastDotGo : List Char → Nat → Option Nat → Option Nat
  | [], _, r => r
  | c :: cs, i, r => lastDotGo cs (i + 1) (if c = '.' then some i else r)

/-- `truncated.lastIndexOf(".")`, as an `Option` (`none` for JS `-1`). -/
def lastDotIdx (s : String) : Option Nat := lastDotGo s.data 0 none

def truncateToTokenLimit (text : String) (maxTokens : Nat) : String :=
  if estimateTokens text ≤ maxTokens then text
  else
    let maxChars := maxTokens * 7 / 2
    let truncated := strTake text maxChars
    match lastDotIdx truncated with
    | some lastPeriod =>
      if 4 * maxChars < 5 * lastPeriod then strTake truncated (lastPeriod + 1)
      else truncated ++ "..."
    | none => truncated ++ "..."

/-- `summarizeText`: one chat-completion call;
`response.choices[0].message.content || text` falls back to the input
when the content is null or empty. -/
def summarizeText (model : String → Nat → Except String (Option String))
    (text : String) (maxTokens : Nat) : Except String String :=
  (model text maxTokens).map (fun content =>
    match content with
    | some s => if s = "" then text else s
    | none => text)

def mapExcept {α β ε : Type} (f : α → Except ε β) : List α → Except ε (List β)
  | [] => .ok []
  | a :: l =>
    match f a with
    | .error e => .error e
    | .ok b => (mapExcept f l).map (fun bs => b :: bs)

/-- `twoStageSummarization`: chunk to ~6k-token segments, summarize each to
500 tokens (`Promise.all`), then condense the concatenation.  The chunker
terminates at this configuration (step `4500 - 150 > 0`), so the `Option`
of `chunkText` is read with a default that is never taken. -/
def twoStageSummarization (model : String → Nat → Except String (Option String))
    (text : String) (maxOutputTokens : Nat) :
    Except String SummarizeResult × Nat :=
  let originalTokens := estimateTokens text
  let chunks := (chunkText text ⟨6000, 200, true⟩).getD []
  match mapExcept (fun c => summarizeText model c 500) chunks with
  | .error e => (.error e, chunks.length)
  | .ok chunkSummaries =>
    let mergedSummaries := String.intercalate "\n\n" chunkSummaries
    match summarizeText model mergedSummaries maxOutputTokens with
    | .error e => (.error e, chunks.length + 1)
    | .ok finalSummary =>
      (.ok ⟨finalSummary, originalTokens, estimateTokens finalSummary⟩,
        chunks.length + 1)

/-- `summarizeChatMessage`: pass through at ≤ 6000 estimated tokens,
otherwise try (two-stage above 20000 tokens, single-pass below) and on
any summarization error fall back to hard truncation.  The second
component counts generative-model calls. -/
def summarizeChatMessage (model : String → Nat → Except String (Option String))
    (message : String) (maxOutputTokens : Nat := 2000) :
    SummarizeResult × Nat :=
  let originalTokens := estimateTokens message
  if originalTokens ≤ 6000 then
    (⟨message, originalTokens, originalTokens⟩, 0)
  else
    let attempt : Except String SummarizeResult × Nat :=
      if 20000 < originalTokens then
        twoStageSummarization model message maxOutputTokens
      else
        match summarizeText model message maxOutputTokens with
        | .error e => (.error e, 1)
        | .ok summary =>
          (.ok ⟨summary, originalTokens, estimateTokens summary⟩, 1)
    match attempt with
    | (.ok r, n) => (r, n)
    | (.error _, n) =>
      let truncated := truncateToTokenLimit message 6000
      (⟨truncated, originalTokens, estimateTokens truncated⟩, n)

/-! ## Batch embeddings (`lib/embeddings.ts`, `batchGenerateEmbeddings`)

The provider is a pure function `embedOf : String → E`.  Both the
whole-batch success path (`response.data[idx].embedding`, positionally
aligned with the batch) and the per-item retry path taken on a batch
failure produce, for each item, the pair `(original index, embedOf text)`,
so the embedding models each batch call as exactly that map.
`Promise.all` resolves to the results in promise order (not completion
order), which is what the list of per-batch results models. -/

def isValidText (t : String) : Bool := !t.isEmpty && !(strTrim t).isEmpty

def listEnumFrom {α : Type} : Nat → List α → List (Nat × α)
  | _, [] => []
  | k, a :: l => (k, a) :: listEnumFrom (k + 1) l

def chunksGo {α : Type} (n : Nat) : Nat → List α → List (List α)
  | _, [] => []
  | 0, _ => []
  | fuel + 1, l => l.take n :: chunksGo n fuel (l.drop n)

/-- Slices `[i, i+n)` for `i = 0, n, 2n, …` (the batching loops). -/
def chunksOf {α : Type} (n : Nat) (l : List α) : List (List α) :=
  chunksGo n (l.length + 1) l

/-- The JS `allEmbeddings.sort((a, b) => a.index - b.index)`: a stable
comparison sort; insertion sort is one such (on the distinct indexes
produced here any comparison sort gives the same list). -/
def insertByIdx {E : Type} (x : Nat × E) : List (Nat × E) → List (Nat × E)
  | [] => [x]
  | y :: ys => if x.1 ≤ y.1 then x :: y :: ys else y :: insertByIdx x ys

def sortByIdx {E : Type} : List (Nat × E) → List (Nat × E)
  | [] => []
  | x :: xs => insertByIdx x (sortByIdx xs)

def batchGenerateEmbeddings {E : Type} (embedOf : String → E)
    (texts : List String) (batchSize : Nat := 100) (concurrency : Nat := 5) :
    List E :=
  if texts.length = 0 then []
  else
    let validTexts := (listEnumFrom 0 texts).filter (fun p => isValidText p.2)
    let batches := chunksOf batchSize validTexts
    let groups := chunksOf concurrency batches
    let allEmbeddings :=
      (groups.map (fun batchGroup =>
        batchGroup.map (fun batch =>
          batch.map (fun item => (item.1, embedOf item.2))))).flatten.flatten
    (sortByIdx allEmbeddings).map (·.2)

/-! ## RAG orchestrator (`src/lib/rag.ts`)

The two external calls of the query path are parameters: the retrieval
result (`queryVectors` on the query embedding) is passed in as
`retrieved : List QueryResult`, and the generative model is a pure
function from the assembled chat request to either the completion
`(content, model)` (content `none` models a null `message.content`) or a
thrown error.  Next to its result each orchestrator function returns the
number of generative-model calls it issued. -/

structure QueryResult where
  id : String
  score : ℚ
  metadata : ChunkMetadata
deriving DecidableEq, Repr

structure Citation where
  title : String
  url : String
  relevance : ℚ
  snippet : String
deriving DecidableEq, Repr

inductive ChatRole where
  | system
  | user
  | assistant
deriving DecidableEq, Repr

structure ChatMsg where
  role : ChatRole
  content : String
deriving DecidableEq, Repr

structure RAGOptions where
  topK : Nat := 5
  temperature : ℚ := 3 / 10
  maxTokens : Nat := 800
  conversationHistory : List ChatMsg := []
deriving DecidableEq, Repr

structure RAGResult where
  answer : String
  citations : List Citation
  retrievedChunks : Nat
  model : String
deriving DecidableEq, Repr

structure GenRequest where
  model : String
  messages : List ChatMsg
  temperature : ℚ
  maxTokens : Nat
  stream : Bool
deriving DecidableEq, Repr

/-- `Number.prototype.toFixed(1)`: nearest multiple of 1/10, ties toward
the larger value. -/
def toFixed1 (q : ℚ) : String :=
  let n : Int := (q * 10 + 1 / 2).floor
  let m := n.natAbs
  let base := natDecimalStr (m / 10) ++ "." ++ natDecimalStr (m % 10)
  if n < 0 then "-" ++ base else base

def buildSystemPrompt : String :=
  "You are Brett McKay\x27s private AI assistant, trained exclusively on his Art of Manliness archive.\n\nROLE:\n- Help Brett and his team search through 5,000+ articles and 1,000+ podcast transcripts\n- Provide accurate, grounded answers based ONLY on the provided context\n- Cite specific article titles and sources\n\nRULES:\n1. Base ALL responses on the provided context - never make up information\n2. If the context doesn\x27t contain relevant information, honestly say \"I don\x27t have information about that in your archive\"\n3. Cite specific article titles when referencing information\n4. Use markdown formatting (bold titles, bullet points, numbered lists)\n5. Keep tone professional, helpful, and concise\n6. When multiple articles cover a topic, list the most relevant ones\n\nFORMAT:\n- Start with a direct answer to the question\n- Include specific article titles in bold\n- Use bullet points or numbered lists for multiple items\n- Keep paragraphs short and scannable\n\nRemember: Your knowledge is LIMITED to the provided context. If you\x27re not confident an answer is in the context, say so."

def contextSection (idx : Nat) (result : QueryResult) : String :=
  "[" ++ natDecimalStr (idx + 1) ++ "] Title: \"" ++ result.metadata.title ++
    "\"\nURL: " ++ result.metadata.url ++
    "\nRelevance: " ++ toFixed1 (result.score * 100) ++ "%" ++
    "\n\nContent:\n" ++ result.metadata.content

def buildUserPrompt (query : String) (retrievedContext : List QueryResult) :
    String :=
  let contextSections :=
    String.intercalate "\n\n---\n\n"
      ((listEnumFrom 0 retrievedContext).map (fun p => contextSection p.1 p.2))
  "CONTEXT FROM BRETT\x27S ARCHIVE:\n\n" ++ contextSections ++
    "\n\n---\n\nUSER QUERY: " ++ query ++
    "\n\nPlease provide a helpful answer based on the context above. Include specific article titles and format your response with markdown."

def toCitation (chunk : QueryResult) : Citation :=
  { title := chunk.metadata.title
    url := chunk.metadata.url
    relevance := chunk.score
    snippet := strTake chunk.metadata.content 150 ++ "..." }

/-- `conversationHistory.slice(-6)` then re-tag the roles
(`msg.role === "user" ? "user" : "assistant"`). -/
def historyMessages (conversationHistory : List ChatMsg) : List ChatMsg :=
  (conversationHistory.drop (conversationHistory.length - 6)).map (fun msg =>
    { role := match msg.role with
        | .user => .user
        | _ => .assistant
      content := msg.content })

def assembleMessages (query : String) (retrieved : List QueryResult)
    (conversationHistory : List ChatMsg) : List ChatMsg :=
  ⟨.system, buildSystemPrompt⟩ ::
    historyMessages conversationHistory ++
      [⟨.user, buildUserPrompt query retrieved⟩]

def noInfoAnswer : String :=
  "I couldn\x27t find any relevant information in the archive for your question. Could you try rephrasing or asking about a different topic?"

def queryKnowledgeBase
    (genModel : GenRequest → Except String (Option String × String))
    (retrieved : List QueryResult) (query : String)
    (options : RAGOptions := {}) : Except String RAGResult × Nat :=
  if retrieved.length = 0 then
    (.ok ⟨noInfoAnswer, [], 0, "gpt-4o"⟩, 0)
  else
    let citations := retrieved.map toCitation
    let messages := assembleMessages query retrieved options.conversationHistory
    match genModel ⟨"gpt-4o", messages, options.temperature,
        options.maxTokens, false⟩ with
    | .ok (content, modelName) =>
      let answer := match content with
        | some s => if s = "" then "No response generated." else s
        | none => "No response generated."
      (.ok ⟨answer, citations, retrieved.length, modelName⟩, 1)
    | .error e => (.error ("Failed to generate response: " ++ e), 1)

structure StreamOutput where
  stream : String
  citations : List Citation
deriving DecidableEq, Repr

def noInfoStreamMessage : String :=
  "I couldn\x27t find any relevant information in the archive for your question."

/-- Streaming variant.  The generative stream is a parameter returning the
delta contents in emission order (`none` models a missing delta); the
`ReadableStream` handed to the caller is modelled by the concatenation of
the non-empty delta fragments it enqueues, in order. -/
def queryKnowledgeBaseStream
    (genStream : GenRequest → List (Option String))
    (retrieved : List QueryResult) (query : String)
    (options : RAGOptions := {}) : StreamOutput × Nat :=
  let citations := retrieved.map toCitation
  if retrieved.length = 0 then
    (⟨noInfoStreamMessage, []⟩, 0)
  else
    let messages := assembleMessages query retrieved options.conversationHistory
    let deltas := genStream ⟨"gpt-4o", messages, options.temperature,
        options.maxTokens, true⟩
    (⟨String.join (deltas.map (fun d => d.getD "")), citations⟩, 1)

/-! ## HTML cleaning (`src/lib/text-processing.ts`, `cleanHTML`)

Each regex replacement of the source is embedded as a left-to-right
scanner over the character list (fuelled by the input length, which is
always sufficient since every step consumes at least one character):

* `/<script\b[^<]*(?:(?!<\/script>)<[^<]*)*<\/script>/gi` removes, for
  every case-insensitive `<script` occurrence followed by a word
  boundary, everything up to and including the first following
  case-insensitive `</script>` (the inner group admits every `<` that
  does not open `</script>`); with no closing tag there is no match.
  Likewise for `<style>`.
* `/<!--[\s\S]*?-->/g` (lazy) removes from `<!--` to the first `-->`.
* `/<[^>]+>/g` replaces by a space every `<` … first-following-`>` span
  with at least one character in between.
* named entities are replaced one table entry after the other (plain
  text patterns, insertion order of the object literal), then
  `/&#(\d+);/g` decodes numeric references via
  `String.fromCharCode(parseInt(num, 10))` (a UTF-16 code unit:
  reduced mod 2^16).
* `/\s+/g → " "`, then `.trim()`, then `/\n{3,}/g → "\n\n"`. -/

def charCI (a b : Char) : Bool := a.toLower = b.toLower

def ciMatch : List Char → List Char → Bool
  | [], _ => true
  | _ :: _, [] => false
  | p :: ps, c :: cs => charCI p c && ciMatch ps cs

def findAfterCI (pat : List Char) : List Char → Option (List Char)
  | [] => none
  | c :: cs =>
    if ciMatch pat (c :: cs) then some ((c :: cs).drop pat.length)
    else findAfterCI pat cs

def isWordChar (c : Char) : Bool := c.isAlphanum || c = '_'

def wordBoundaryAfter (n : Nat) (l : List Char) : Bool :=
  match l.drop n with
  | [] => true
  | d :: _ => !isWordChar d

def removeElemsGo (openPat closePat : List Char) : Nat → List Char → List Char
  | _, [] => []
  | 0, l => l
  | fuel + 1, c :: cs =>
    if ciMatch openPat (c :: cs) && wordBoundaryAfter openPat.length (c :: cs) then
      match findAfterCI closePat ((c :: cs).drop openPat.length) with
      | some rest => removeElemsGo openPat closePat fuel rest
      | none => c :: removeElemsGo openPat closePat fuel cs
    else c :: removeElemsGo openPat closePat fuel cs

def removeElems (openPat closePat : List Char) (l : List Char) : List Char :=
  removeElemsGo openPat closePat (l.length + 1) l

def findAfterExact (pat : List Char) : List Char → Option (List Char)
  | [] => none
  | c :: cs =>
    if listStartsWith pat (c :: cs) then some ((c :: cs).drop pat.length)
    else findAfterExact pat cs

def removeCommentsGo : Nat → List Char → List Char
  | _, [] => []
  | 0, l => l
  | fuel + 1, c :: cs =>
    if listStartsWith ("<!--".data) (c :: cs) then
      match findAfterExact ("-->".data) ((c :: cs).drop 4) with
      | some rest => removeCommentsGo fuel rest
      | none => c :: removeCommentsGo fuel cs
    else c :: removeCommentsGo fuel cs

def splitAtGt : List Char → Option (List Char × List Char)
  | [] => none
  | c :: cs =>
    if c = '>' then some ([], cs)
    else (splitAtGt cs).map (fun r => (c :: r.1, r.2))

def stripTagsGo : Nat → List Char → List Char
  | _, [] => []
  | 0, l => l
  | fuel + 1, c :: cs =>
    if c = '<' then
      match splitAtGt cs with
      | some (between, rest) =>
        if between.isEmpty then c :: stripTagsGo fuel cs
        else ' ' :: stripTagsGo fuel rest
      | none => c :: stripTagsGo fuel cs
    else c :: stripTagsGo fuel cs

def replaceAllGo (pat rep : List Char) : Nat → List Char → List Char
  | _, [] => []
  | 0, l => l
  | fuel + 1, c :: cs =>
    if listStartsWith pat (c :: cs) then
      rep ++ replaceAllGo pat rep fuel ((c :: cs).drop pat.length)
    else c :: replaceAllGo pat rep fuel cs

def entityTable : List (List Char × List Char) :=
  [("&amp;".data, "&".data),
   ("&lt;".data, "<".data),
   ("&gt;".data, ">".data),
   ("&quot;".data, "\"".data),
   ("&#39;".data, "\x27".data),
   ("&apos;".data, "\x27".data),
   ("&nbsp;".data, " ".data),
   ("&mdash;".data, "—".data),
   ("&ndash;".data, "–".data),
   ("&hellip;".data, "...".data),
   ("&rsquo;".data, "’".data),
   ("&lsquo;".data, "‘".data),
   ("&rdquo;".data, "”".data),
   ("&ldquo;".data, "“".data)]

def fromCharCode (n : Nat) : Char := Char.ofNat (n % 65536)

def numEntGo : Nat → List Char → List Char
  | _, [] => []
  | 0, l => l
  | fuel + 1, c :: cs =>
    if c = '&' then
      match cs with
      | '#' :: rest =>
        let ds := rest.takeWhile (·.isDigit)
        match rest.drop ds.length with
        | ';' :: after =>
          if ds.isEmpty then c :: numEntGo fuel cs
          else fromCharCode (digitsToNat ds) :: numEntGo fuel after
        | _ => c :: numEntGo fuel cs
      | _ => c :: numEntGo fuel cs
    else c :: numEntGo fuel cs

def decodeHTMLEntities (l : List Char) : List Char :=
  let decoded :=
    entityTable.foldl (fun acc p => replaceAllGo p.1 p.2 (acc.length + 1) acc) l
  numEntGo (decoded.length + 1) decoded

def collapseWsGo : Nat → List Char → List Char
  | _, [] => []
  | 0, l => l
  | fuel + 1, c :: cs =>
    if isWsChar c then ' ' :: collapseWsGo fuel (cs.dropWhile isWsChar)
    else c :: collapseWsGo fuel cs

def collapseNlGo : Nat → List Char → List Char
  | _, [] => []
  | 0, l => l
  | fuel + 1, c :: cs =>
    if c = '\n' then
      let run := 1 + (cs.takeWhile (· = '\n')).length
      let after := cs.dropWhile (· = '\n')
      (if 3 ≤ run then ['\n', '\n'] else List.replicate run '\n') ++
        collapseNlGo fuel after
    else c :: collapseNlGo fuel cs

def cleanHTML (html : String) : String :=
  if html.isEmpty then ""
  else
    let t1 := removeElems ("<script".data) ("</script>".data) html.data
    let t2 := removeElems ("<style".data) ("</style>".data) t1
    let t3 := removeCommentsGo (t2.length + 1) t2
    let t4 := stripTagsGo (t3.length + 1) t3
    let t5 := decodeHTMLEntities t4
    let t6 := strTrim (String.mk (collapseWsGo (t5.length + 1) t5))
    String.mk (collapseNlGo (t6.data.length + 1) t6.data)

/-! # Theorems -/

/-! ## C1: empty-retrieval short circuit -/

/-- C1: when the vector-index retrieval returns zero matches, both
`queryKnowledgeBase` and `queryKnowledgeBaseStream` issue zero calls to
the generative model (the call counter is 0 and the result does not
depend on the model) and return their fixed no-relevant-information
answer with an empty citation list; the non-streaming variant reports
`retrievedChunks = 0` and model `"gpt-4o"`. -/
theorem queryKnowledgeBase_empty_retrieval_short_circuit :
    ∀ (genModel : GenRequest → Except String (Option String × String))
      (genStream : GenRequest → List (Option String))
      (query : String) (options : RAGOptions),
      queryKnowledgeBase genModel [] query options =
        (.ok ⟨"I couldn\x27t find any relevant information in the archive for your question. Could you try rephrasing or asking about a different topic?",
          [], 0, "gpt-4o"⟩, 0) ∧
      queryKnowledgeBaseStream genStream [] query options =
        (⟨"I couldn\x27t find any relevant information in the archive for your question.",
          []⟩, 0) := by
  intro genModel genStream query options
  exact ⟨rfl, rfl⟩

/-! ## C2: the chunk-size bound is violated by the accumulation path -/

/-- C2 (code bug): the sentence-accumulation path budgets a chunk by the
sum of the per-sentence token estimates, ignoring the single spaces that
`currentChunk.join(" ")` inserts, so a produced chunk can exceed
`maxTokens`: on `"Abcdef. Bcdefg."` with `maxTokens = 4` the two
sentences estimate to 2 tokens each (sum 4 ≤ 4), yet the joined chunk
estimates to 5 > 4. -/
theorem chunkText_chunk_token_bound_violated :
    chunkText "Abcdef. Bcdefg." ⟨4, 0, true⟩ = some ["Abcdef. Bcdefg."] ∧
    estimateTokens "Abcdef. Bcdefg." = 5 ∧ 4 < 5 := by
  refine ⟨by decide, by decide, by decide⟩

/-! ## C6: the indexed-record identifier -/

/-- C6 counterexample: the identifier written for document id `"1"`,
chunk 0 is `"article-1-chunk-0"`, not the `"doc-1-chunk-0"` the claim
states. -/
theorem buildVectorId_not_doc_format :
    buildVectorId "1" 0 = "article-1-chunk-0" ∧
    buildVectorId "1" 0 ≠ "doc-1-chunk-0" := by
  refine ⟨by decide, by decide⟩

/-- C6 (amended): the identifier written to the vector index is
`"article-<articleId>-chunk-<chunkIndex>"` — a deterministic function of
the document (article) id and the 0-based chunk index — and the record
carries the metadata fields title, url, content, chunkIndex and
articleId (the spec calls the last one `documentId`). -/
theorem vectorRecord_id_and_metadata_shape :
    ∀ (articleId title url content : String) (chunkIndex : Nat)
      (embedding : List ℚ),
      (mkVectorRecord articleId title url chunkIndex content embedding).id =
        "article-" ++ articleId ++ "-chunk-" ++ natDecimalStr chunkIndex ∧
      (mkVectorRecord articleId title url chunkIndex content embedding).values =
        embedding ∧
      (mkVectorRecord articleId title url chunkIndex content embedding).metadata =
        ⟨title, url, content, chunkIndex, articleId⟩ := by
  intro articleId title url content chunkIndex embedding
  exact ⟨rfl, rfl, rfl⟩

/-! ## C7: the HTML-cleaning scenario -/

/-- C7 counterexample: on `"<p>Hello&nbsp;<b>World</b>!</p>"` the
Normalizer does not return `"Hello World!"`. -/
theorem cleanHTML_scenario_not_claimed_output :
    cleanHTML "<p>Hello&nbsp;<b>World</b>!</p>" ≠ "Hello World!" := by
  decide

/-- C7 (amended): every tag is replaced by a space (not deleted), so the
closing `</b>` separates `World` from `!` and the cleaned output is
`"Hello World !"` — tags removed, `&nbsp;` decoded, whitespace runs
collapsed, but with a space before the exclamation mark. -/
theorem cleanHTML_scenario_output :
    cleanHTML "<p>Hello&nbsp;<b>World</b>!</p>" = "Hello World !" := by
  decide

/-! ## C10: termination of the word-level fallback loop -/

theorem chunkByWordsGo_isSome_of_le (words : List String) (mw step : Nat) :
    ∀ (fuel i : Nat), words.length ≤ i + fuel * step →
      (chunkByWordsGo words mw step fuel i).isSome := by
  intro fuel
  induction fuel with
  | zero =>
    intro i h
    rw [chunkByWordsGo]
    rw [if_neg (by omega)]
    rfl
  | succ fuel ih =>
    intro i h
    rw [chunkByWordsGo]
    by_cases hi : i < words.length
    · rw [if_pos hi]
      have hrec := ih (i + step) (by
        have : i + (fuel + 1) * step = i + step + fuel * step := by ring
        omega)
      obtain ⟨rest, hrest⟩ := Option.isSome_iff_exists.mp hrec
      rw [hrest]
      by_cases hc : 0 < (strTrim (joinSp ((words.drop i).take mw))).length
      · simp [hc]
      · simp [hc]
    · rw [if_neg hi]
      rfl

theorem chunkByWords_isSome (text : String) (maxTokens overlap : Nat)
    (h : overlap * 3 / 4 < maxTokens * 3 / 4) :
    (chunkByWords text maxTokens overlap).isSome := by
  unfold chunkByWords
  apply chunkByWordsGo_isSome_of_le
  have h1 : (jsSplitWs text).length + 1 ≤
      ((jsSplitWs text).length + 1) * (maxTokens * 3 / 4 - overlap * 3 / 4) := by
    have := Nat.mul_le_mul_left ((jsSplitWs text).length + 1)
      (show 1 ≤ maxTokens * 3 / 4 - overlap * 3 / 4 by omega)
    omega
  omega

theorem optionMap_isSome {α β : Type} (f : α → β) (o : Option α) :
    (o.map f).isSome = o.isSome := by
  cases o <;> rfl

theorem chunkLoop_isSome (maxTokens overlap : Nat)
    (h : overlap * 3 / 4 < maxTokens * 3 / 4) :
    ∀ (sentences current : List String) (currentTokens : Nat),
      (chunkLoop maxTokens overlap sentences current currentTokens).isSome := by
  intro sentences
  induction sentences with
  | nil => intro current t; rw [chunkLoop]; rfl
  | cons s rest ih =>
    intro current t
    rw [chunkLoop]
    by_cases hbig : maxTokens < estimateTokens s
    · rw [if_pos hbig]
      obtain ⟨wcs, hwcs⟩ :=
        Option.isSome_iff_exists.mp (chunkByWords_isSome s maxTokens overlap h)
      rw [hwcs]
      rw [optionMap_isSome]
      exact ih [] 0
    · rw [if_neg hbig]
      by_cases hclose :
          (maxTokens < t + estimateTokens s && !current.isEmpty) = true
      · rw [if_pos hclose]
        rw [optionMap_isSome]
        exact ih _ _
      · rw [if_neg hclose]
        exact ih _ _

/-- C10: `chunkText` terminates (the fuelled embedding returns `some`) on
every input and configuration whose word-level step
`⌊maxTokens·0.75⌋ - ⌊overlap·0.75⌋` is positive; the default
configuration (800, 200) satisfies this; and the precondition is needed:
with `maxTokens = overlap = 4` the fallback loop's index never advances
and the loop never terminates (modelled by `none`). -/
theorem chunkText_termination_step_positive :
    (∀ (text : String) (maxTokens overlap : Nat) (ps : Bool),
        overlap * 3 / 4 < maxTokens * 3 / 4 →
        (chunkText text ⟨maxTokens, overlap, ps⟩).isSome) ∧
    200 * 3 / 4 < 800 * 3 / 4 ∧
    chunkText "aaaaaaa bbbbbbb" ⟨4, 4, true⟩ = none := by
  refine ⟨?_, by decide, by decide⟩
  intro text maxTokens overlap ps h
  unfold chunkText
  split
  · rfl
  · split
    · rfl
    · rw [optionMap_isSome]
      split
      · rw [optionMap_isSome]
        exact chunkLoop_isSome _ _ h _ _ _
      · exact chunkByWords_isSome _ _ _ h

/-- C10 witness: at the default configuration the chunker returns a
result. -/
theorem chunkText_termination_step_positive_witness :
    (chunkText "hello world" ⟨800, 200, true⟩).isSome ∧ 200 * 3 / 4 < 800 * 3 / 4 :=
  ⟨chunkText_termination_step_positive.1 "hello world" 800 200 true (by decide),
    by decide⟩

/-! ## C8: pass-through of short messages -/

/-- C8: a message whose token estimate is under 6000 is passed through
unchanged: no generative-model call is made (the call count is 0 and the
result does not depend on the model) and both token counts equal
`estimateTokens message`. -/
theorem summarizeChatMessage_passthrough :
    ∀ (model : String → Nat → Except String (Option String))
      (message : String) (maxOutputTokens : Nat),
      estimateTokens message < 6000 →
      summarizeChatMessage model message maxOutputTokens =
        (⟨message, estimateTokens message, estimateTokens message⟩, 0) := by
  intro model message maxOutputTokens h
  simp only [summarizeChatMessage]
  rw [if_pos (Nat.le_of_lt h)]

/-- C8 witness: `"hi"` estimates to 1 token and passes through. -/
theorem summarizeChatMessage_passthrough_witness :
    summarizeChatMessage (fun _ _ => .ok (some "S")) "hi" 2000 =
      (⟨"hi", 1, 1⟩, 0) ∧ estimateTokens "hi" < 6000 := by
  refine ⟨?_, by decide⟩
  rw [summarizeChatMessage_passthrough (fun _ _ => .ok (some "S")) "hi" 2000
    (by decide)]
  decide

/-! ## C5: truncation fallback on summarization failure -/

theorem summarizeText_error (model : String → Nat → Except String (Option String))
    (hfail : ∀ t n, ∃ e, model t n = Except.error e) :
    ∀ x n, ∃ e, summarizeText model x n = Except.error e := by
  intro x n
  obtain ⟨e, he⟩ := hfail x n
  exact ⟨e, by simp [summarizeText, he, Except.map]⟩

theorem twoStageSummarization_error
    (model : String → Nat → Except String (Option String))
    (hfail : ∀ t n, ∃ e, model t n = Except.error e) (text : String)
    (maxOut : Nat) :
    ∃ e n, twoStageSummarization model text maxOut = (Except.error e, n) := by
  unfold twoStageSummarization
  cases hch : (chunkText text ⟨6000, 200, true⟩).getD [] with
  | nil =>
    obtain ⟨e, he⟩ :=
      summarizeText_error model hfail (String.intercalate "\n\n" []) maxOut
    refine ⟨e, 1, ?_⟩
    simp [hch, mapExcept, he]
  | cons c cs =>
    obtain ⟨e, he⟩ := summarizeText_error model hfail c 500
    refine ⟨e, (c :: cs).length, ?_⟩
    simp [hch, mapExcept, he]

/-- C5: when every summarization-model call fails, `summarizeChatMessage`
does not propagate the error: it returns the input hard-truncated by
`truncateToTokenLimit` to the 6000-token budget, with the original and
truncated token estimates; and that truncation is the first
`⌊6000 · 3.5⌋ = 21000` characters, cut back to the last period when that
period lies in the final 20 % of the window (index above
`21000 · 0.8 = 16800`), otherwise with an ellipsis appended. -/
theorem summarizeChatMessage_failure_truncation_fallback :
    ∀ (model : String → Nat → Except String (Option String))
      (message : String) (maxOut : Nat),
      (∀ t n, ∃ e, model t n = Except.error e) →
      6000 < estimateTokens message →
      (summarizeChatMessage model message maxOut).1 =
        ⟨truncateToTokenLimit message 6000, estimateTokens message,
          estimateTokens (truncateToTokenLimit message 6000)⟩ ∧
      truncateToTokenLimit message 6000 =
        (match lastDotIdx (strTake message 21000) with
         | some lastPeriod =>
           if 16800 < lastPeriod then
             strTake (strTake message 21000) (lastPeriod + 1)
           else strTake message 21000 ++ "..."
         | none => strTake message 21000 ++ "...") := by
  intro model message maxOut hfail h6
  constructor
  · simp only [summarizeChatMessage]
    rw [if_neg (by omega)]
    by_cases h20 : 20000 < estimateTokens message
    · rw [if_pos h20]
      obtain ⟨e, n, htw⟩ := twoStageSummarization_error model hfail message maxOut
      rw [htw]
    · rw [if_neg h20]
      obtain ⟨e, he⟩ := summarizeText_error model hfail message maxOut
      rw [he]
  · simp only [truncateToTokenLimit]
    rw [if_neg (by omega)]
    norm_num
    cases hld : lastDotIdx (strTake message 21000) with
    | none => simp
    | some lp =>
      simp only []
      by_cases hc : 16800 < lp
      · rw [if_pos (by omega), if_pos hc]
      · rw [if_neg (by omega), if_neg hc]

theorem estimateTokens_mk_replicate (n : Nat) :
    estimateTokens (String.mk (List.replicate n 'a')) = (2 * n + 6) / 7 := by
  unfold estimateTokens
  rw [show (String.mk (List.replicate n 'a')).length = n from
    List.length_replicate ..]

/-- C5 witness: a 21001-character message (6001 estimated tokens) with an
always-failing model is answered by the truncation fallback. -/
theorem summarizeChatMessage_failure_truncation_fallback_witness :
    6000 < estimateTokens (String.mk (List.replicate 21001 'a')) ∧
    (summarizeChatMessage (fun _ _ => Except.error "boom")
        (String.mk (List.replicate 21001 'a')) 2000).1 =
      ⟨truncateToTokenLimit (String.mk (List.replicate 21001 'a')) 6000,
        estimateTokens (String.mk (List.replicate 21001 'a')),
        estimateTokens
          (truncateToTokenLimit (String.mk (List.replicate 21001 'a')) 6000)⟩ := by
  have h6 : 6000 < estimateTokens (String.mk (List.replicate 21001 'a')) := by
    rw [estimateTokens_mk_replicate]
    norm_num
  exact ⟨h6, (summarizeChatMessage_failure_truncation_fallback
    (fun _ _ => Except.error "boom") (String.mk (List.replicate 21001 'a')) 2000
    (fun t n => ⟨"boom", rfl⟩) h6).1⟩

/-! ## C4: batch embeddings preserve input order -/

theorem chunksGo_flatten {α : Type} (n : Nat) (hn : 1 ≤ n) :
    ∀ (fuel : Nat) (l : List α), l.length ≤ fuel →
      (chunksGo n fuel l).flatten = l := by
  intro fuel
  induction fuel with
  | zero =>
    intro l h
    cases l with
    | nil => rfl
    | cons a l' => simp at h
  | succ fuel ih =>
    intro l h
    cases l with
    | nil => rfl
    | cons a l' =>
      show ((a :: l').take n :: chunksGo n fuel ((a :: l').drop n)).flatten =
        a :: l'
      rw [List.flatten_cons,
        ih ((a :: l').drop n) (by rw [List.length_drop]; simp at h ⊢; omega),
        List.take_append_drop]

theorem chunksOf_flatten {α : Type} (n : Nat) (hn : 1 ≤ n) (l : List α) :
    (chunksOf n l).flatten = l :=
  chunksGo_flatten n hn (l.length + 1) l (by omega)

theorem flatten_map_map {α β : Type} (f : α → β) :
    ∀ L : List (List α),
      (L.map (fun l => l.map f)).flatten = L.flatten.map f := by
  intro L
  induction L with
  | nil => rfl
  | cons l L ih => simp only [List.map_cons, List.flatten_cons, ih,
      List.map_append]

theorem listEnumFrom_fst_ge {α : Type} :
    ∀ (k : Nat) (l : List α) (p : Nat × α), p ∈ listEnumFrom k l → k ≤ p.1 := by
  intro k l
  induction l generalizing k with
  | nil => intro p hp; simp [listEnumFrom] at hp
  | cons a l ih =>
    intro p hp
    rw [listEnumFrom] at hp
    rcases List.mem_cons.mp hp with h | h
    · subst h; exact Nat.le_refl k
    · have := ih (k + 1) p h; omega

theorem listEnumFrom_pairwise {α : Type} :
    ∀ (k : Nat) (l : List α),
      (listEnumFrom k l).Pairwise (fun a b => a.1 < b.1) := by
  intro k l
  induction l generalizing k with
  | nil => exact List.Pairwise.nil
  | cons a l ih =>
    rw [listEnumFrom]
    refine List.Pairwise.cons ?_ (ih (k + 1))
    intro p hp
    have := listEnumFrom_fst_ge (k + 1) l p hp
    omega

theorem sortByIdx_eq_self {E : Type} :
    ∀ l : List (Nat × E), l.Pairwise (fun a b => a.1 < b.1) → sortByIdx l = l := by
  intro l
  induction l with
  | nil => intro _; rfl
  | cons x xs ih =>
    intro hp
    obtain ⟨hx, htail⟩ := List.pairwise_cons.mp hp
    show insertByIdx x (sortByIdx xs) = x :: xs
    rw [ih htail]
    cases xs with
    | nil => rfl
    | cons y ys =>
      show (if x.1 ≤ y.1 then x :: y :: ys else y :: insertByIdx x ys) =
        x :: y :: ys
      rw [if_pos (Nat.le_of_lt (hx y (by simp)))]

theorem enumFilterMap {E : Type} (embedOf : String → E) :
    ∀ (k : Nat) (texts : List String),
      ((listEnumFrom k texts).filter (fun p => isValidText p.2)).map
          (fun p => embedOf p.2) =
        (texts.filter isValidText).map embedOf := by
  intro k texts
  induction texts generalizing k with
  | nil => rfl
  | cons t ts ih =>
    rw [listEnumFrom]
    by_cases hv : isValidText t
    · simp only [List.filter_cons, hv, if_pos, List.map_cons, ih (k + 1)]
    · simp [List.filter_cons, hv, ih (k + 1)]

/-- C4: with positive batch size and concurrency, `batchGenerateEmbeddings`
returns exactly the provider's embedding function mapped over the
non-blank input texts in their original input order; blank (empty or
whitespace-only) texts are skipped and absent from the output. -/
theorem batchGenerateEmbeddings_preserves_order :
    ∀ {E : Type} (embedOf : String → E) (texts : List String)
      (batchSize concurrency : Nat),
      1 ≤ batchSize → 1 ≤ concurrency →
      batchGenerateEmbeddings embedOf texts batchSize concurrency =
        (texts.filter isValidText).map embedOf := by
  intro E embedOf texts bs conc hbs hconc
  unfold batchGenerateEmbeddings
  by_cases h0 : texts.length = 0
  · rw [if_pos h0]
    cases texts with
    | nil => rfl
    | cons => simp at h0
  · rw [if_neg h0]
    show (sortByIdx
        ((chunksOf conc (chunksOf bs
              ((listEnumFrom 0 texts).filter (fun p => isValidText p.2)))).map
            (fun batchGroup => batchGroup.map (fun batch =>
              batch.map (fun item => (item.1, embedOf item.2))))).flatten.flatten).map
        (·.2) = (texts.filter isValidText).map embedOf
    rw [flatten_map_map]
    rw [chunksOf_flatten conc hconc]
    rw [flatten_map_map]
    rw [chunksOf_flatten bs hbs]
    rw [sortByIdx_eq_self _ (by
      rw [List.pairwise_map]
      exact List.Pairwise.filter _ (listEnumFrom_pairwise 0 texts))]
    rw [List.map_map]
    exact enumFilterMap embedOf 0 texts

/-- C4 witness: a concrete batch with a blank entry. -/
theorem batchGenerateEmbeddings_preserves_order_witness :
    batchGenerateEmbeddings String.length ["a", "", "bc"] 100 5 = [1, 2] ∧
    (1 : Nat) ≤ 100 ∧ (1 : Nat) ≤ 5 := by
  refine ⟨?_, by decide, by decide⟩
  rw [batchGenerateEmbeddings_preserves_order String.length ["a", "", "bc"]
    100 5 (by decide) (by decide)]
  decide

/-! ## C9: vector-id round trip -/

theorem digitChar_isDigit (n : Nat) (h : n < 10) : (digitChar n).isDigit = true := by
  interval_cases n <;> decide

theorem digitChar_toNat (n : Nat) (h : n < 10) : (digitChar n).toNat - 48 = n := by
  interval_cases n <;> decide

theorem natDecimalGo_all_digits :
    ∀ (fuel n : Nat), allDigits (natDecimalGo fuel n) = true := by
  intro fuel
  induction fuel with
  | zero => intro n; rfl
  | succ fuel ih =>
    intro n
    rw [natDecimalGo]
    by_cases h : n < 10
    · rw [if_pos h]
      simp [allDigits, digitChar_isDigit n h]
    · rw [if_neg h]
      have h10 : n % 10 < 10 := Nat.mod_lt _ (by omega)
      have := ih (n / 10)
      simp only [allDigits, List.all_append, List.all_cons, List.all_nil] at this ⊢
      simp [this, digitChar_isDigit _ h10]

theorem natDecimal_all_digits (n : Nat) : allDigits (natDecimal n) = true :=
  natDecimalGo_all_digits (n + 1) n

theorem natDecimal_ne_nil (n : Nat) : natDecimal n ≠ [] := by
  unfold natDecimal
  rw [natDecimalGo]
  by_cases h : n < 10
  · rw [if_pos h]; simp
  · rw [if_neg h]; simp

theorem digitsToNat_append (l : List Char) (c : Char) :
    digitsToNat (l ++ [c]) = digitsToNat l * 10 + (c.toNat - 48) := by
  unfold digitsToNat
  rw [List.foldl_append]
  rfl

theorem digitsToNat_natDecimalGo :
    ∀ (n fuel : Nat), n < fuel → digitsToNat (natDecimalGo fuel n) = n := by
  intro n
  induction n using Nat.strong_induction_on with
  | _ n ih =>
    intro fuel hf
    cases fuel with
    | zero => omega
    | succ fuel =>
      rw [natDecimalGo]
      by_cases h : n < 10
      · rw [if_pos h]
        have h1 : digitsToNat [digitChar n] = (digitChar n).toNat - 48 := by
          unfold digitsToNat
          simp [List.foldl]
        rw [h1, digitChar_toNat n h]
      · rw [if_neg h]
        rw [digitsToNat_append]
        have h10 : n / 10 < n := Nat.div_lt_self (by omega) (by omega)
        rw [ih (n / 10) h10 fuel (by omega),
          digitChar_toNat (n % 10) (Nat.mod_lt _ (by omega))]
        omega

theorem digitsToNat_natDecimal (n : Nat) : digitsToNat (natDecimal n) = n :=
  digitsToNat_natDecimalGo n (n + 1) (by omega)

theorem goParse_digits_none :
    ∀ (ds : List Char), allDigits ds = true → ∀ pre, goParse pre ds = none := by
  intro ds
  induction ds with
  | nil => intro _ pre; rfl
  | cons d rest ih =>
    intro hd pre
    have hdigit : d.isDigit = true := by
      simp only [allDigits, List.all_cons, Bool.and_eq_true] at hd
      exact hd.1
    have hrest : allDigits rest = true := by
      simp only [allDigits, List.all_cons, Bool.and_eq_true] at hd
      exact hd.2
    rw [goParse]
    rw [ih hrest (pre ++ [d])]
    have hne : ¬ ('-' = d) := by
      intro he
      rw [← he] at hdigit
      exact absurd hdigit (by decide)
    have hsw : listStartsWith ("-chunk-".data) (d :: rest) = false := by
      show (decide ('-' = d) && listStartsWith ("chunk-".data) rest) = false
      rw [decide_eq_false hne]
      rfl
    simp [hsw]

theorem goParse_step_none (x : Char) (l : List Char) (hx : ¬ ('-' = x))
    (hl : ∀ pre, goParse pre l = none) :
    ∀ pre, goParse pre (x :: l) = none := by
  intro pre
  rw [goParse, hl (pre ++ [x])]
  have hsw : listStartsWith ("-chunk-".data) (x :: l) = false := by
    show (decide ('-' = x) && listStartsWith ("chunk-".data) l) = false
    rw [decide_eq_false hx]
    rfl
  simp [hsw]

theorem goParse_chunkTail_none (ds : List Char) (hds : allDigits ds = true)
    (hne : ds ≠ []) :
    ∀ pre, goParse pre ('c' :: 'h' :: 'u' :: 'n' :: 'k' :: '-' ::ds) = none := by
  have h1 : ∀ pre, goParse pre ('-' :: ds) = none := by
    intro pre
    rw [goParse, goParse_digits_none ds hds (pre ++ ['-'])]
    have hsw : listStartsWith ("-chunk-".data) ('-' :: ds) = false := by
      show (decide ('-' = '-') && listStartsWith ("chunk-".data) ds) = false
      cases ds with
      | nil => exact absurd rfl hne
      | cons d rest =>
        have hdigit : d.isDigit = true := by
          simp only [allDigits, List.all_cons, Bool.and_eq_true] at hds
          exact hds.1
        have hcd : ¬ ('c' = d) := fun he => by
          rw [← he] at hdigit; exact absurd hdigit (by decide)
        show (decide ('-' = '-') &&
          (decide ('c' = d) && listStartsWith ("hunk-".data) rest)) = false
        rw [decide_eq_false hcd]
        simp
    simp [hsw]
  have h2 := goParse_step_none 'k' _ (by decide) h1
  have h3 := goParse_step_none 'n' _ (by decide) h2
  have h4 := goParse_step_none 'u' _ (by decide) h3
  have h5 := goParse_step_none 'h' _ (by decide) h4
  exact goParse_step_none 'c' _ (by decide) h5

theorem goParse_main :
    ∀ (a pre ds : List Char), allDigits ds = true → ds ≠ [] →
      pre ++ a ≠ [] → (pre ++ a).contains '\n' = false →
      goParse pre (a ++ '-' :: 'c' :: 'h' :: 'u' :: 'n' :: 'k' :: '-' ::ds) =
        some (pre ++ a, ds) := by
  intro a
  induction a with
  | nil =>
    intro pre ds hds hne hpre hnl
    rw [List.append_nil] at hpre hnl
    show goParse pre ('-' :: 'c' :: 'h' :: 'u' :: 'n' :: 'k' :: '-' ::ds) = some (pre ++ [], ds)
    rw [goParse, goParse_chunkTail_none ds hds hne (pre ++ ['-'])]
    have hcond : (listStartsWith ("-chunk-".data)
          ('-' :: 'c' :: 'h' :: 'u' :: 'n' :: 'k' :: '-' ::ds) &&
        !(('-' :: 'c' :: 'h' :: 'u' :: 'n' :: 'k' :: '-' ::ds).drop 7).isEmpty &&
        allDigits (('-' :: 'c' :: 'h' :: 'u' :: 'n' :: 'k' :: '-' ::ds).drop 7) &&
        !pre.isEmpty && !pre.contains '\n') = true := by
      have h1 : listStartsWith ("-chunk-".data)
          ('-' :: 'c' :: 'h' :: 'u' :: 'n' :: 'k' :: '-' ::ds) = true := by
        show (decide ('-' = '-') && (decide ('c' = 'c') && (decide ('h' = 'h') &&
          (decide ('u' = 'u') && (decide ('n' = 'n') && (decide ('k' = 'k') &&
          (decide ('-' = '-') && listStartsWith [] ds))))))) = true
        simp [listStartsWith]
      have h2 : ('-' :: 'c' :: 'h' :: 'u' :: 'n' :: 'k' :: '-' ::ds).drop 7 = ds := rfl
      have h3 : ds.isEmpty = false := by
        cases ds with
        | nil => exact absurd rfl hne
        | cons _ _ => rfl
      have h4 : pre.isEmpty = false := by
        cases pre with
        | nil => exact absurd rfl hpre
        | cons _ _ => rfl
      rw [h1, h2, h3, h4, hds, hnl]
      rfl
    rw [if_pos hcond, List.append_nil]
    rfl
  | cons x a' ih =>
    intro pre ds hds hne hpre hnl
    show goParse pre (x :: (a' ++ '-' :: 'c' :: 'h' :: 'u' :: 'n' :: 'k' :: '-' ::ds)) =
      some (pre ++ x :: a', ds)
    rw [goParse]
    have hrec := ih (pre ++ [x]) ds hds hne
      (by simp) (by simpa using hnl)
    rw [show (pre ++ [x]) ++ a' = pre ++ x :: a' by simp] at hrec
    rw [hrec]

theorem listStartsWith_append_self :
    ∀ (p l : List Char), listStartsWith p (p ++ l) = true := by
  intro p
  induction p with
  | nil => intro l; rfl
  | cons c cs ih =>
    intro l
    show (decide (c = c) && listStartsWith cs (cs ++ l)) = true
    simp [ih]

/-- C9: for every non-empty article id containing no newline and every
chunk index, `parseVectorId` inverts `buildVectorId` exactly; and the
non-emptiness is necessary: the id built from the empty article id fails
to parse. -/
theorem parseVectorId_buildVectorId_roundtrip :
    (∀ (articleId : String) (chunkIndex : Nat),
        articleId ≠ "" → articleId.data.contains '\n' = false →
        parseVectorId (buildVectorId articleId chunkIndex) =
          some (articleId, chunkIndex)) ∧
    parseVectorId (buildVectorId "" 0) = none := by
  refine ⟨?_, by decide⟩
  intro articleId n hne hnl
  have hd : articleId.data ≠ [] := by
    intro h
    apply hne
    cases articleId with
    | mk d =>
      have h' : d = [] := h
      subst h'
      rfl
  unfold buildVectorId parseVectorId
  have hdata : ("article-" ++ articleId ++ "-chunk-" ++ natDecimalStr n).data =
      "article-".data ++
        (articleId.data ++ ('-' :: 'c' :: 'h' :: 'u' :: 'n' :: 'k' :: '-' ::natDecimal n)) := by
    rw [String.data_append, String.data_append, String.data_append]
    show (("article-".data ++ articleId.data) ++ "-chunk-".data) ++ natDecimal n =
      "article-".data ++
        (articleId.data ++ ('-' :: 'c' :: 'h' :: 'u' :: 'n' :: 'k' :: '-' ::natDecimal n))
    rw [List.append_assoc, List.append_assoc]
    rfl
  rw [hdata]
  rw [if_pos (listStartsWith_append_self ("article-".data) _)]
  have hdrop : ("article-".data ++
      (articleId.data ++ ('-' :: 'c' :: 'h' :: 'u' :: 'n' :: 'k' :: '-' ::natDecimal n))).drop 8 =
      articleId.data ++ ('-' :: 'c' :: 'h' :: 'u' :: 'n' :: 'k' :: '-' ::natDecimal n) := by
    have := List.drop_left ("article-".data)
      (articleId.data ++ ('-' :: 'c' :: 'h' :: 'u' :: 'n' :: 'k' :: '-' ::natDecimal n))
    rw [show ("article-".data).length = 8 from rfl] at this
    exact this
  rw [hdrop]
  rw [goParse_main articleId.data [] (natDecimal n) (natDecimal_all_digits n)
    (natDecimal_ne_nil n) (by simpa using hd) (by simpa using hnl)]
  have hmk : String.mk articleId.data = articleId := by
    cases articleId with
    | mk d => rfl
  simp [hmk, digitsToNat_natDecimal]

/-- C9 witness: a concrete round trip. -/
theorem parseVectorId_buildVectorId_roundtrip_witness :
    parseVectorId (buildVectorId "abc" 7) = some ("abc", 7) ∧ "abc" ≠ "" :=
  ⟨parseVectorId_buildVectorId_roundtrip.1 "abc" 7 (by decide) (by decide),
    by decide⟩

/-! ## C3: overlap between consecutive chunks -/

theorem overlapGo_mem (ov : Nat) :
    ∀ (rl : List String) (t : Nat) (acc : List String) (x : String),
      x ∈ overlapGo ov rl t acc → x ∈ rl ∨ x ∈ acc := by
  intro rl
  induction rl with
  | nil => intro t acc x hx; exact Or.inr hx
  | cons s rest ih =>
    intro t acc x hx
    rw [overlapGo] at hx
    by_cases h : ov < t + estimateTokens s
    · rw [if_pos h] at hx
      exact Or.inr hx
    · rw [if_neg h] at hx
      rcases ih _ _ x hx with h1 | h1
      · exact Or.inl (List.mem_cons_of_mem s h1)
      · rcases List.mem_cons.mp h1 with h2 | h2
        · exact Or.inl (h2 ▸ List.mem_cons_self s rest)
        · exact Or.inr h2

theorem getOverlapSentences_subset (l : List String) (ov : Nat) (x : String)
    (hx : x ∈ getOverlapSentences l ov) : x ∈ l := by
  unfold getOverlapSentences at hx
  rcases overlapGo_mem ov l.reverse 0 [] x hx with h | h
  · exact List.mem_reverse.mp h
  · cases h

theorem chunkLoop_head_prefix (maxTokens overlap : Nat) :
    ∀ (sentences : List String),
      (∀ s ∈ sentences, estimateTokens s ≤ maxTokens) →
      ∀ (current : List String) (t : Nat) (L : List (List String))
        (c : List String),
        chunkLoop maxTokens overlap sentences current t = some L →
        L.head? = some c → current <+: c := by
  intro sentences
  induction sentences with
  | nil =>
    intro _ current t L c hL hc
    rw [chunkLoop] at hL
    injection hL with hL'
    subst hL'
    by_cases hcur : current.isEmpty = true
    · rw [if_pos hcur] at hc
      cases hc
    · rw [if_neg hcur] at hc
      injection hc with hc'
      subst hc'
      exact List.prefix_refl current
  | cons s rest ih =>
    intro hs current t L c hL hc
    rw [chunkLoop] at hL
    have hst : ¬ maxTokens < estimateTokens s := by
      have := hs s (List.mem_cons_self s rest)
      omega
    rw [if_neg hst] at hL
    have hsrest : ∀ x ∈ rest, estimateTokens x ≤ maxTokens :=
      fun x hx => hs x (List.mem_cons_of_mem s hx)
    by_cases hclose :
        (maxTokens < t + estimateTokens s && !current.isEmpty) = true
    · rw [if_pos hclose] at hL
      obtain ⟨tail, hrec, hLe⟩ := Option.map_eq_some'.mp hL
      subst hLe
      injection hc with hc'
      subst hc'
      exact List.prefix_refl _
    · rw [if_neg hclose] at hL
      have := ih hsrest (current ++ [s]) _ L c hL hc
      exact (List.prefix_append current [s]).trans this

theorem chunkLoop_share (maxTokens overlap : Nat) :
    ∀ (sentences : List String),
      (∀ s ∈ sentences, estimateTokens s ≤ maxTokens) →
      ∀ (current : List String) (t : Nat) (L : List (List String)),
        chunkLoop maxTokens overlap sentences current t = some L →
        ∀ (i : Nat) (c₁ c₂ : List String),
          L.get? i = some c₁ → L.get? (i + 1) = some c₂ →
          getOverlapSentences c₁ overlap ≠ [] →
          ∃ s, s ∈ c₁ ∧ s ∈ c₂ := by
  intro sentences
  induction sentences with
  | nil =>
    intro _ current t L hL i c₁ c₂ h1 h2 _
    rw [chunkLoop] at hL
    injection hL with hL'
    subst hL'
    by_cases hcur : current.isEmpty = true
    · rw [if_pos hcur] at h1
      cases h1
    · rw [if_neg hcur] at h2
      rw [List.get?_cons_succ] at h2
      cases h2
  | cons s rest ih =>
    intro hs current t L hL i c₁ c₂ h1 h2 hov
    rw [chunkLoop] at hL
    have hst : ¬ maxTokens < estimateTokens s := by
      have := hs s (List.mem_cons_self s rest)
      omega
    rw [if_neg hst] at hL
    have hsrest : ∀ x ∈ rest, estimateTokens x ≤ maxTokens :=
      fun x hx => hs x (List.mem_cons_of_mem s hx)
    by_cases hclose :
        (maxTokens < t + estimateTokens s && !current.isEmpty) = true
    · rw [if_pos hclose] at hL
      obtain ⟨tail, hrec, hLe⟩ := Option.map_eq_some'.mp hL
      subst hLe
      cases i with
      | zero =>
        rw [List.get?_cons_zero] at h1
        injection h1 with h1'
        subst h1'
        rw [List.get?_cons_succ] at h2
        have hhead : tail.head? = some c₂ := by
          rw [← List.get?_zero]
          exact h2
        have hpref := chunkLoop_head_prefix maxTokens overlap rest hsrest
          (getOverlapSentences current overlap ++ [s]) _ tail c₂ hrec hhead
        obtain ⟨x, hx⟩ := List.exists_mem_of_ne_nil _ hov
        exact ⟨x, getOverlapSentences_subset _ _ _ hx,
          hpref.subset (List.mem_append_left _ hx)⟩
      | succ i =>
        rw [List.get?_cons_succ] at h1 h2
        exact ih hsrest _ _ tail hrec i c₁ c₂ h1 h2 hov
    · rw [if_neg hclose] at hL
      exact ih hsrest _ _ L hL i c₁ c₂ h1 h2 hov

/-- C3 counterexample: on `"Abcdef. Bcdefg. Cdefgh."` with
`maxTokens = 4, overlap = 1` the chunker produces two consecutive chunks
that share no sentence and no word, although the source (7 estimated
tokens) is not shorter than `overlapTokens = 1`: the trailing sentence
of the first chunk alone estimates above the overlap budget, so the
overlap seed is empty. -/
theorem chunkText_consecutive_overlap_cex :
    chunkText "Abcdef. Bcdefg. Cdefgh." ⟨4, 1, true⟩ =
      some ["Abcdef. Bcdefg.", "Cdefgh."] ∧
    estimateTokens "Abcdef. Bcdefg. Cdefgh." = 7 ∧
    ¬ estimateTokens "Abcdef. Bcdefg. Cdefgh." < 1 ∧
    (splitIntoSentences "Abcdef. Bcdefg.").inter
      (splitIntoSentences "Cdefgh.") = [] ∧
    (jsSplitWs "Abcdef. Bcdefg.").inter (jsSplitWs "Cdefgh.") = [] := by
  refine ⟨by decide, by decide, by decide, by decide, by decide⟩

/-- C3 (amended): in the sentence-preserving chunking loop, on input
whose every sentence fits within `maxTokens` (no word-level fallback),
any two consecutive produced chunks share at least one common sentence
*provided* the overlap computation on the earlier chunk is non-empty;
when the trailing sentence of the earlier chunk alone exceeds
`overlapTokens` the seed is empty and consecutive chunks may share
nothing even though the source is longer than `overlapTokens`. -/
theorem chunkText_consecutive_overlap_amended :
    ∀ (maxTokens overlap : Nat) (sentences : List String),
      (∀ s ∈ sentences, estimateTokens s ≤ maxTokens) →
      ∀ L, chunkLoop maxTokens overlap sentences [] 0 = some L →
        ∀ i c₁ c₂, L.get? i = some c₁ → L.get? (i + 1) = some c₂ →
          getOverlapSentences c₁ overlap ≠ [] →
          ∃ s, s ∈ c₁ ∧ s ∈ c₂ :=
  fun maxT ov sents hs L hL i c₁ c₂ h1 h2 hov =>
    chunkLoop_share maxT ov sents hs [] 0 L hL i c₁ c₂ h1 h2 hov

/-- C3 witness: with `maxTokens = 4, overlap = 2` the trailing sentence
fits in the overlap budget and consecutive chunks do share it. -/
theorem chunkText_consecutive_overlap_amended_witness :
    chunkLoop 4 2 ["Abcdef.", "Bcdefg.", "Cdefgh."] [] 0 =
      some [["Abcdef.", "Bcdefg."], ["Bcdefg.", "Cdefgh."]] ∧
    (∃ s, s ∈ ["Abcdef.", "Bcdefg."] ∧ s ∈ ["Bcdefg.", "Cdefgh."]) :=
  ⟨by decide,
    chunkText_consecutive_overlap_amended 4 2 ["Abcdef.", "Bcdefg.", "Cdefgh."]
      (by decide) [["Abcdef.", "Bcdefg."], ["Bcdefg.", "Cdefgh."]] (by decide)
      0 ["Abcdef.", "Bcdefg."] ["Bcdefg.", "Cdefgh."] (by decide) (by decide)
      (by decide)⟩
